import Mathlib

/-
A shallow embedding of `peewee_versioned.py` (the `VersionedModel` mixin).

The embedding tracks a single versioned entity together with the rows of its
auto-generated `*Version` shadow table.  All of the library's behaviour is
driven by the methods of `VersionedModel`:

  * `save`                     (lines 108-124)
  * `delete_instance`          (lines 126-140)
  * `create_table`/`drop_table` (lines 142-160)
  * `version_id`               (lines 163-173)
  * `revert`                   (lines 175-206)
  * `_get_fields_to_copy`      (lines 208-216)
  * `_create_new_version`      (lines 218-247)
  * `_get_current_version`     (lines 249-268)
  * `_finalize_current_version` (lines 270-274)

The parts of peewee 2.x that the source calls into are embedded faithfully
where their behaviour decides a claim:

  * Field assignment (`FieldDescriptor.__set__`) stores the value and adds the
    field to the instance's `_dirty` set unconditionally - assigning a value
    equal to the one already held still marks the instance dirty.
    `Model.is_dirty()` is `bool(self._dirty)`; `Model.save()` clears `_dirty`.
  * `Model.save()` INSERTs (and assigns the primary key) when the primary key
    is unset, otherwise it UPDATEs the row with the instance's values (a
    non-existent row makes the UPDATE touch nothing).
  * `Model.delete_instance()` DELETEs the row by primary key; the
    `on_delete="SET NULL"` foreign key clears `_original_record` on every
    snapshot row that referenced the deleted row.
  * The `_versions` back-reference is the query
    `VersionModel.select().where(VersionModel._original_record == self.pk)`;
    for a never-saved instance the primary key is NULL and the comparison
    selects no rows.
  * `query.get()` returns the first result or raises `DoesNotExist`;
    `query[0]` raises `IndexError` on an empty result.

Business fields are modelled as a `List Int` (position = field, value =
contents); `_get_fields_to_copy` returns exactly the business fields, so field
copying is wholesale.  Timestamps are drawn from a logical clock that advances
at every `datetime.now()` / `datetime.utcnow()` call.
-/

set_option maxHeartbeats 1000000

/-- Decidable equality for `Except`, used to evaluate the embedding on
concrete inputs. -/
instance {ε α : Type} [DecidableEq ε] [DecidableEq α] : DecidableEq (Except ε α) := fun a b =>
  match a, b with
  | .error e, .error f =>
      if h : e = f then isTrue (by rw [h]) else isFalse (fun hc => h (Except.error.inj hc))
  | .error _, .ok _ => isFalse (fun hc => Except.noConfusion hc)
  | .ok _, .error _ => isFalse (fun hc => Except.noConfusion hc)
  | .ok x, .ok y =>
      if h : x = y then isTrue (by rw [h]) else isFalse (fun hc => h (Except.ok.inj hc))

namespace PeeweeVersioned

/-- Error outcomes surfaced by the versioning layer, each standing for the
Python exception raised at the corresponding place in the source. -/
inductive VError where
  /-- `RuntimeError` raised by `_get_current_version` when more than one open
  snapshot exists (lines 266-268). -/
  | consistencyViolation
  /-- peewee `DoesNotExist` raised by `.get()` in `revert` (line 195). -/
  | doesNotExist
  /-- `IndexError` raised by `[0]` on an empty query in `revert` (line 200). -/
  | indexError
  /-- `AttributeError` raised by dereferencing `None` in the `version_id`
  property (line 171) when no current version exists. -/
  | attributeError
  /-- A failure of the backing store during one step of an operation. -/
  | storeFailure
deriving DecidableEq

/-- One row of the auto-generated `*Version` shadow table.  The versioning
fields come from `MetaModel._version_fields` (lines 38-44): `_valid_from`,
`_valid_until`, `_deleted`, `_original_record`, `_version_id`, and the
explicit primary key `_id` (modelled as `rid`, assigned at insertion).
`originalRecord` is `true` while the `_original_record` foreign key still
references the owning entity and `false` once it is NULL.  `fields` is the
copy of the entity's business fields. -/
structure VersionRow where
  rid : Nat
  validFrom : Nat
  validUntil : Option Nat
  deleted : Bool
  originalRecord : Bool
  versionId : Nat
  fields : List Int
deriving DecidableEq

/-- The observable state of one versioned entity: the in-memory instance
(`fields`, peewee's dirty flag, whether the primary key has been assigned),
its row in the entity table (`row`, `none` when absent), every row of the
shadow version table (`snapshots`, in insertion order), and the logical
clock. -/
structure EState where
  fields : List Int
  dirty : Bool
  saved : Bool
  row : Option (List Int)
  snapshots : List VersionRow
  clock : Nat
deriving DecidableEq

/-- Constructing an entity instance (`Model.__init__`): `fields` holds the
constructor arguments and defaults, and peewee seeds `_dirty` with every
field that received a value - `d` is `true` exactly when that set is
non-empty.  Nothing has been persisted yet. -/
def init (fs : List Int) (d : Bool) : EState :=
  { fields := fs, dirty := d, saved := false, row := none, snapshots := [], clock := 0 }

/-- The `self._versions` back-reference: snapshot rows whose
`_original_record` foreign key equals this instance's primary key.  A
never-saved instance has a NULL primary key, and the equality comparison with
NULL selects no rows. -/
def theVersions (s : EState) : List VersionRow :=
  if s.saved then s.snapshots.filter (fun r => r.originalRecord) else []

/-- The subquery of `_get_current_version` (lines 255-257): the entity's
snapshot rows whose `_valid_until` is NULL. -/
def openOwned (s : EState) : List VersionRow :=
  (theVersions s).filter (fun r => r.validUntil.isNone)

/-- `_get_current_version` (lines 249-268): exactly one open row is returned,
zero open rows yield `None`, and more than one raises `RuntimeError`. -/
def getCurrentVersion (s : EState) : Except VError (Option VersionRow) :=
  match openOwned s with
  | [] => .ok none
  | [v] => .ok (some v)
  | _ :: _ :: _ => .error .consistencyViolation

/-- Closing one snapshot row: `current_version._valid_until = utcnow();
current_version.save()` updates, by primary key, the row being closed. -/
def closeAt (rid t : Nat) (r : VersionRow) : VersionRow :=
  if r.rid = rid then { r with validUntil := some t } else r

/-- `_finalize_current_version` (lines 270-274): look up the open snapshot
and, when one exists, set its `_valid_until` to the current time and persist
it. -/
def finalize_current_version (s : EState) : Except VError EState :=
  match getCurrentVersion s with
  | .error e => .error e
  | .ok none => .ok s
  | .ok (some v) =>
      .ok { s with snapshots := s.snapshots.map (closeAt v.rid s.clock),
                   clock := s.clock + 1 }

/-- Stable insertion used to embed `order_by(VersionModel._version_id.desc())`:
a row is placed in front of the first row with a strictly smaller
`_version_id`. -/
def insertDesc (r : VersionRow) : List VersionRow → List VersionRow
  | [] => [r]
  | x :: xs => if x.versionId < r.versionId then r :: x :: xs else x :: insertDesc r xs

/-- The query result ordered by `_version_id` descending. -/
def orderByVidDesc (l : List VersionRow) : List VersionRow :=
  l.foldr insertDesc []

/-- The `new_version_id` computation of `_create_new_version` (lines
229-236): the entity's snapshots are ordered by `_version_id` descending and
the first one's id plus one is used; an empty history (`IndexError`) yields
1. -/
def nextVersionId (s : EState) : Nat :=
  match orderByVidDesc (theVersions s) with
  | [] => 1
  | v :: _ => v.versionId + 1

/-- `_create_new_version` (lines 218-247): build a fresh `VersionModel` row
(`_valid_from` defaults to now, `_valid_until` NULL, `_deleted` false),
copy every business field from the live instance, point `_original_record`
at the entity (NULL when the entity's primary key is unset), set
`_version_id` to the next id, and - when `save` is true - insert it. -/
def create_new_version (s : EState) (save : Bool) : EState × VersionRow :=
  let row : VersionRow :=
    { rid := s.snapshots.length, validFrom := s.clock, validUntil := none,
      deleted := false, originalRecord := s.saved,
      versionId := nextVersionId s, fields := s.fields }
  let s2 := { s with clock := s.clock + 1 }
  if save then ({ s2 with snapshots := s2.snapshots ++ [row] }, row) else (s2, row)

/-- peewee's `Model.save` on the entity row: INSERT (assigning the primary
key) when the primary key is unset, otherwise UPDATE the existing row; the
dirty set is cleared afterwards. -/
def superSave (s : EState) : EState :=
  { s with row := if s.saved then s.row.map (fun _ => s.fields) else some s.fields,
           saved := true, dirty := false }

/-- `VersionedModel.save` (lines 108-124) for a live entity: when the
instance is not dirty only the plain row write happens; otherwise, inside one
transaction, the row is written, the previous version is finalized, and a new
version row is created. -/
def save (s : EState) : Except VError EState :=
  if !s.dirty then .ok (superSave s)
  else
    match finalize_current_version (superSave s) with
    | .error e => .error e
    | .ok s2 => .ok (create_new_version s2 true).1

/-- The transactional part of `delete_instance` (lines 129-137): finalize the
open snapshot, create a new version row without saving it, mark it deleted,
and insert it. -/
def deleteTransaction (s : EState) : Except VError EState :=
  match finalize_current_version s with
  | .error e => .error e
  | .ok s1 =>
      let p := create_new_version s1 false
      .ok { p.1 with snapshots := p.1.snapshots ++ [{ p.2 with deleted := true }] }

/-- The `SET NULL` referential action on one snapshot row: the
`_original_record` foreign key is cleared. -/
def detach (r : VersionRow) : VersionRow :=
  { r with originalRecord := false }

/-- peewee's `Model.delete_instance` on the entity row: DELETE by primary
key; when a row is actually removed, the `SET NULL` foreign key clears
`_original_record` on every snapshot row referencing it. -/
def superDelete (s : EState) : EState :=
  if s.saved ∧ s.row.isSome then
    { s with row := none, snapshots := s.snapshots.map detach }
  else s

/-- `VersionedModel.delete_instance` (lines 126-140) for a live entity, in
the failure-free execution: the snapshot transaction followed by the plain
row delete. -/
def delete_instance (s : EState) : Except VError EState :=
  match deleteTransaction s with
  | .error e => .error e
  | .ok s1 => .ok (superDelete s1)

/-- Where a store failure strikes during `delete_instance`: nowhere, inside
the `atomic()` block, or at the final row delete. -/
inductive FailAt where
  | atNone
  | atTransaction
  | atRowDelete
deriving DecidableEq

/-- `VersionedModel.delete_instance` with an injected store failure.  A
failure inside the `atomic()` block (lines 129-137) rolls the transaction
back, so the store is unchanged.  The row delete of line 140 executes after
the `with` block has already committed, so a failure there leaves the
committed snapshot changes in place.  The pair is the resulting store state
together with the raised error, if any. -/
def delete_instanceF (s : EState) (f : FailAt) : EState × Option VError :=
  match f with
  | .atTransaction => (s, some .storeFailure)
  | _ =>
    match deleteTransaction s with
    | .error e => (s, some e)
    | .ok s1 =>
      match f with
      | .atRowDelete => (s1, some .storeFailure)
      | _ => (superDelete s1, none)

/-- The `version_id` property (lines 163-173) on a live entity: it looks up
the current version and returns that row's `_version_id`; when the lookup
yields `None` the attribute access `current_version.version_id` raises
`AttributeError`. -/
def version_id (s : EState) : Except VError Nat :=
  match getCurrentVersion s with
  | .error e => .error e
  | .ok none => .error .attributeError
  | .ok (some v) => .ok v.versionId

/-- The non-negative branch of `revert` (line 195):
`self._versions.filter(VersionModel._version_id == version).get()` - the
first matching row, or `DoesNotExist` when nothing matches. -/
def resolvePositive (s : EState) (k : Nat) : Except VError VersionRow :=
  match (theVersions s).filter (fun r => r.versionId == k) with
  | [] => .error .doesNotExist
  | v :: _ => .ok v

/-- The negative branch of `revert` (lines 197-200): order the entity's
snapshots by `_version_id` descending, skip `-version` rows (`offset`), and
take the first remaining row; `[0]` on an empty result raises
`IndexError`. -/
def resolveNegative (s : EState) (k : Nat) : Except VError VersionRow :=
  match (orderByVidDesc (theVersions s)).drop k with
  | [] => .error .indexError
  | v :: _ => .ok v

/-- Selector resolution of `revert` (lines 192-200) for integer selectors:
non-negative selectors match `_version_id` exactly, negative selectors index
relatively from the most recent version. -/
def resolveSelector (s : EState) (version : Int) : Except VError VersionRow :=
  if 0 ≤ version then resolvePositive s version.toNat
  else resolveNegative s (-version).toNat

/-- The field-copy loop of `revert` (lines 202-204): every business field of
the resolved version row is assigned onto the live instance with `setattr`,
and each assignment adds the field to the dirty set - so the instance becomes
dirty whenever at least one business field exists. -/
def copyFields (s : EState) (vm : VersionRow) : EState :=
  { s with fields := vm.fields, dirty := s.dirty || !s.fields.isEmpty }

/-- `VersionedModel.revert` (lines 175-206) for an integer selector on a live
entity: resolve the selector, copy the resolved row's business fields onto
the instance, and call `save`. -/
def revert (s : EState) (version : Int) : Except VError EState :=
  match resolveSelector s version with
  | .error e => .error e
  | .ok vm => save (copyFields s vm)

/-- The two storage shapes whose tables are created and dropped. -/
inductive TableEvent where
  | entityTable
  | versionTable
deriving DecidableEq, BEq

/-- `VersionedModel.create_table` (lines 142-150): first
`super().create_table()` creates the entity's own table, then
`version_model.create_table()` creates the shadow version table. -/
def create_table : List TableEvent :=
  [TableEvent.entityTable, TableEvent.versionTable]

/-- `VersionedModel.drop_table` (lines 152-160): the shadow version table is
dropped first, then `super().drop_table()` drops the entity's own table. -/
def drop_table : List TableEvent :=
  [TableEvent.versionTable, TableEvent.entityTable]

/-- One externally invokable mutation of the entity: a business-field
assignment, a `save`, or a `delete_instance`. -/
inductive Op where
  | assign (i : Nat) (v : Int)
  | save
  | delete
deriving DecidableEq

/-- Assignment to a declared business field (`FieldDescriptor.__set__`):
store the value and mark the instance dirty, regardless of whether the value
changed. -/
def applyAssign (s : EState) (i : Nat) (v : Int) : EState :=
  if i < s.fields.length then { s with fields := s.fields.set i v, dirty := true } else s

/-- One step of the entity's lifecycle. -/
def step (s : EState) : Op → Except VError EState
  | .assign i v => .ok (applyAssign s i v)
  | .save => save s
  | .delete => delete_instance s

/-- A whole lifecycle: the operations applied in order, stopping at the first
raised error. -/
def run (s : EState) : List Op → Except VError EState
  | [] => .ok s
  | op :: ops =>
      match step s op with
      | .error e => .error e
      | .ok s2 => run s2 ops

/-- The `_version_id` values of the entity's (still linked) snapshots, in
insertion order. -/
def ownedVids (s : EState) : List Nat :=
  (theVersions s).map (fun r => r.versionId)

/-- Version number and business-field copy of each linked snapshot, in
insertion order. -/
def ownedPairs (s : EState) : List (Nat × List Int) :=
  (theVersions s).map (fun r => (r.versionId, r.fields))

/-- The `_version_id` values of every row ever inserted into the entity's
shadow table, in insertion order, including rows whose `_original_record`
link was severed by a delete. -/
def allVids (s : EState) : List Nat :=
  s.snapshots.map (fun r => r.versionId)

/-- The consistency invariant maintained by every reachable state: the linked
snapshots carry the dense version numbers `1..N` in insertion order, at most
one of them is open, an unsaved entity has no linked rows at all, and all
field lists have the schema's arity. -/
structure Inv (a : Nat) (s : EState) : Prop where
  dense : ownedVids s = List.range' 1 (theVersions s).length
  openLe : (openOwned s).length ≤ 1
  unattached : s.saved = false → ∀ r ∈ s.snapshots, r.originalRecord = false
  arity : s.fields.length = a
  rowArity : ∀ r ∈ s.snapshots, r.fields.length = a

theorem closeAt_rid (i t : Nat) (r : VersionRow) : (closeAt i t r).rid = r.rid := by
  unfold closeAt; split <;> rfl

theorem closeAt_versionId (i t : Nat) (r : VersionRow) :
    (closeAt i t r).versionId = r.versionId := by
  unfold closeAt; split <;> rfl

theorem closeAt_fields (i t : Nat) (r : VersionRow) : (closeAt i t r).fields = r.fields := by
  unfold closeAt; split <;> rfl

theorem closeAt_originalRecord (i t : Nat) (r : VersionRow) :
    (closeAt i t r).originalRecord = r.originalRecord := by
  unfold closeAt; split <;> rfl

theorem theVersions_eq_nil_of_not_saved {s : EState} (h : s.saved = false) :
    theVersions s = [] := by
  simp [theVersions, h]

theorem saved_of_mem_theVersions {s : EState} {vm : VersionRow} (h : vm ∈ theVersions s) :
    s.saved = true := by
  cases hs : s.saved
  · rw [theVersions_eq_nil_of_not_saved hs] at h
    exact absurd h (List.not_mem_nil vm)
  · rfl

theorem theVersions_of_saved {s : EState} (h : s.saved = true) :
    theVersions s = s.snapshots.filter (fun r => r.originalRecord) := by
  simp [theVersions, h]

theorem mem_snapshots_of_mem_theVersions {s : EState} {vm : VersionRow}
    (h : vm ∈ theVersions s) : vm ∈ s.snapshots := by
  rw [theVersions_of_saved (saved_of_mem_theVersions h)] at h
  exact List.mem_of_mem_filter h

theorem filter_attached_map_closeAt (l : List VersionRow) (i t : Nat) :
    (l.map (closeAt i t)).filter (fun r => r.originalRecord) =
      (l.filter (fun r => r.originalRecord)).map (closeAt i t) := by
  induction l with
  | nil => rfl
  | cons x xs ih =>
      simp only [List.map_cons, List.filter_cons, closeAt_originalRecord]
      cases hx : x.originalRecord <;> simp [hx, ih]

theorem map_pair_map_closeAt (l : List VersionRow) (i t : Nat) :
    (l.map (closeAt i t)).map (fun r => (r.versionId, r.fields)) =
      l.map (fun r => (r.versionId, r.fields)) := by
  induction l with
  | nil => rfl
  | cons x xs ih => simp [closeAt_versionId, closeAt_fields, ih]

theorem ownedVids_eq_map_fst (s : EState) : ownedVids s = (ownedPairs s).map Prod.fst := by
  simp [ownedVids, ownedPairs, List.map_map]

theorem length_theVersions_eq_length_ownedPairs (s : EState) :
    (theVersions s).length = (ownedPairs s).length := by
  simp [ownedPairs]

theorem not_open_map_closeAt {l : List VersionRow} {v : VersionRow} {t : Nat}
    (h : l.filter (fun r => r.validUntil.isNone) = [v]) :
    (l.map (closeAt v.rid t)).filter (fun r => r.validUntil.isNone) = [] := by
  rw [List.filter_eq_nil_iff]
  intro r hr
  obtain ⟨x, hx, rfl⟩ := List.mem_map.mp hr
  by_cases hrid : x.rid = v.rid
  · simp [closeAt, hrid]
  · have hcx : closeAt v.rid t x = x := by simp [closeAt, hrid]
    rw [hcx]
    intro hopen
    have hxmem : x ∈ l.filter (fun r => r.validUntil.isNone) :=
      List.mem_filter.mpr ⟨hx, hopen⟩
    rw [h, List.mem_singleton] at hxmem
    exact hrid (by rw [hxmem])

theorem finalize_spec (a : Nat) (s : EState) (h : Inv a s) :
    ∃ s2, finalize_current_version s = .ok s2 ∧ Inv a s2 ∧
      ownedPairs s2 = ownedPairs s ∧ openOwned s2 = [] ∧
      s2.fields = s.fields ∧ s2.saved = s.saved ∧ s2.dirty = s.dirty ∧
      s2.row = s.row ∧ s2.snapshots.length = s.snapshots.length := by
  rcases hoo : openOwned s with _ | ⟨v, rest⟩
  · refine ⟨s, ?_, h, rfl, hoo, rfl, rfl, rfl, rfl, rfl⟩
    unfold finalize_current_version getCurrentVersion
    rw [hoo]
  · rcases rest with _ | ⟨w, rest2⟩
    · have hvmem : v ∈ theVersions s := by
        have : v ∈ openOwned s := by rw [hoo]; exact List.mem_singleton_self v
        exact List.mem_of_mem_filter this
      have hsaved : s.saved = true := saved_of_mem_theVersions hvmem
      refine ⟨{ s with snapshots := s.snapshots.map (closeAt v.rid s.clock),
                       clock := s.clock + 1 }, ?_, ?_, ?_, ?_, rfl, rfl, rfl, rfl, by simp⟩
      · unfold finalize_current_version getCurrentVersion
        rw [hoo]
      all_goals {
        have htv : theVersions { s with snapshots := s.snapshots.map (closeAt v.rid s.clock),
                                        clock := s.clock + 1 } =
            (theVersions s).map (closeAt v.rid s.clock) := by
          simp only [theVersions, hsaved, if_true]
          exact filter_attached_map_closeAt s.snapshots v.rid s.clock
        have hpairs : ownedPairs { s with snapshots := s.snapshots.map (closeAt v.rid s.clock),
                                          clock := s.clock + 1 } = ownedPairs s := by
          unfold ownedPairs
          rw [htv]
          exact map_pair_map_closeAt (theVersions s) v.rid s.clock
        have hopen2 : openOwned { s with snapshots := s.snapshots.map (closeAt v.rid s.clock),
                                         clock := s.clock + 1 } = [] := by
          unfold openOwned
          rw [htv]
          exact not_open_map_closeAt (by rw [← hoo]; rfl)
        first
        | exact hpairs
        | exact hopen2
        | exact {
            dense := by
              rw [ownedVids_eq_map_fst, hpairs, length_theVersions_eq_length_ownedPairs,
                  hpairs, ← length_theVersions_eq_length_ownedPairs, ← ownedVids_eq_map_fst]
              exact h.dense
            openLe := by rw [hopen2]; simp
            unattached := by intro hns; rw [hns] at hsaved; exact absurd hsaved (by simp)
            arity := h.arity
            rowArity := by
              intro r hr
              obtain ⟨x, hx, rfl⟩ := List.mem_map.mp hr
              rw [closeAt_fields]
              exact h.rowArity x hx }
      }
    · have hlen : (openOwned s).length ≤ 1 := h.openLe
      rw [hoo] at hlen
      simp at hlen

theorem mem_insertDesc {x r : VersionRow} {l : List VersionRow} :
    x ∈ insertDesc r l ↔ x = r ∨ x ∈ l := by
  induction l with
  | nil => simp [insertDesc]
  | cons y ys ih =>
      unfold insertDesc
      split
      · simp
      · simp [ih]
        tauto

theorem mem_of_mem_orderByVidDesc {x : VersionRow} {l : List VersionRow}
    (h : x ∈ orderByVidDesc l) : x ∈ l := by
  induction l with
  | nil => simp [orderByVidDesc] at h
  | cons y ys ih =>
      have h2 : x ∈ insertDesc y (orderByVidDesc ys) := h
      rcases mem_insertDesc.mp h2 with h3 | h3
      · rw [h3]; exact List.mem_cons_self y ys
      · exact List.mem_cons_of_mem y (ih h3)

theorem insertDesc_eq_append {r : VersionRow} {l : List VersionRow}
    (h : ∀ x ∈ l, ¬ x.versionId < r.versionId) : insertDesc r l = l ++ [r] := by
  induction l with
  | nil => rfl
  | cons y ys ih =>
      unfold insertDesc
      rw [if_neg (h y (List.mem_cons_self y ys))]
      rw [ih (fun x hx => h x (List.mem_cons_of_mem y hx))]
      rfl

theorem orderByVidDesc_of_range {l : List VersionRow} : ∀ {m n : Nat},
    l.map (fun r => r.versionId) = List.range' m n → orderByVidDesc l = l.reverse := by
  induction l with
  | nil => intro m n _; rfl
  | cons a t ih =>
      intro m n h
      cases n with
      | zero => simp [List.range'] at h
      | succ k =>
          rw [List.map_cons, List.range'] at h
          have h1 : a.versionId = m := (List.cons.injEq _ _ _ _ ▸ h).1
          have h2 : t.map (fun r => r.versionId) = List.range' (m + 1) k :=
            (List.cons.injEq _ _ _ _ ▸ h).2
          have ht : orderByVidDesc t = t.reverse := ih h2
          have hstep : orderByVidDesc (a :: t) = insertDesc a (orderByVidDesc t) := rfl
          rw [hstep, ht, List.reverse_cons]
          apply insertDesc_eq_append
          intro x hx
          have hxm : x.versionId ∈ t.map (fun r => r.versionId) :=
        List.mem_map_of_mem (fun r => r.versionId) (List.mem_reverse.mp hx)
          rw [h2] at hxm
          have := (List.mem_range'_1.mp hxm).1
          omega

theorem nextVersionId_eq (s : EState)
    (h : ownedVids s = List.range' 1 (theVersions s).length) :
    nextVersionId s = (theVersions s).length + 1 := by
  unfold nextVersionId
  have hrev : orderByVidDesc (theVersions s) = (theVersions s).reverse :=
    orderByVidDesc_of_range h
  rw [hrev]
  cases hN : (theVersions s).length with
  | zero =>
      have : theVersions s = [] := List.length_eq_zero.mp hN
      rw [this]
      rfl
  | succ k =>
      have hvids : (theVersions s).map (fun r => r.versionId) = List.range' 1 (k + 1) := by
        have := h
        rw [hN] at this
        exact this
      have hmaprev : ((theVersions s).reverse).map (fun r => r.versionId) =
          (1 + k) :: (List.range' 1 k).reverse := by
        rw [List.map_reverse, hvids, List.range'_concat, List.reverse_append]
        simp
      rcases hc : (theVersions s).reverse with _ | ⟨v, rest⟩
      · rw [hc] at hmaprev
        exact absurd hmaprev (by simp)
      · rw [hc, List.map_cons] at hmaprev
        have hv : v.versionId = 1 + k := (List.cons.injEq _ _ _ _ ▸ hmaprev).1
        show v.versionId + 1 = k + 1 + 1
        omega

/-- The row that `_create_new_version` builds, with the `_deleted` value it
carries when it is inserted: `false` on the save path; the delete path flips
the flag to `true` before inserting. -/
def insertedRow (s : EState) (del : Bool) : VersionRow :=
  { rid := s.snapshots.length, validFrom := s.clock, validUntil := none,
    deleted := del, originalRecord := s.saved,
    versionId := nextVersionId s, fields := s.fields }

/-- The store state after inserting that row. -/
def insertState (s : EState) (del : Bool) : EState :=
  { s with clock := s.clock + 1, snapshots := s.snapshots ++ [insertedRow s del] }

theorem create_new_version_true_eq (s : EState) :
    create_new_version s true = (insertState s false, insertedRow s false) := rfl

theorem deleteTransaction_eq (s s1 : EState) (hfin : finalize_current_version s = .ok s1) :
    deleteTransaction s = .ok (insertState s1 true) := by
  unfold deleteTransaction
  rw [hfin]
  rfl

theorem insertState_spec (a : Nat) (s : EState) (del : Bool) (h : Inv a s)
    (hopen : openOwned s = []) :
    Inv a (insertState s del) ∧
    (s.saved = true →
      theVersions (insertState s del) = theVersions s ++ [insertedRow s del] ∧
      ownedPairs (insertState s del) =
        ownedPairs s ++ [((theVersions s).length + 1, s.fields)] ∧
      (insertedRow s del).versionId = (theVersions s).length + 1) := by
  cases hs : s.saved
  · have htv2 : theVersions (insertState s del) = [] :=
      theVersions_eq_nil_of_not_saved hs
    constructor
    · exact {
        dense := by
          unfold ownedVids
          rw [htv2]
          rfl
        openLe := by
          unfold openOwned
          rw [htv2]
          simp
        unattached := by
          intro _ r hr
          rcases List.mem_append.mp hr with h1 | h1
          · exact h.unattached hs r h1
          · rw [List.mem_singleton.mp h1]
            show s.saved = false
            exact hs
        arity := h.arity
        rowArity := by
          intro r hr
          rcases List.mem_append.mp hr with h1 | h1
          · exact h.rowArity r h1
          · rw [List.mem_singleton.mp h1]
            exact h.arity }
    · intro hcontra
      exact absurd hcontra (by simp)
  · have hvid : (insertedRow s del).versionId = (theVersions s).length + 1 :=
      nextVersionId_eq s h.dense
    have hrowatt : (insertedRow s del).originalRecord = true := hs
    have htv : theVersions (insertState s del) = theVersions s ++ [insertedRow s del] := by
      simp only [theVersions, insertState, hs, if_true]
      rw [List.filter_append]
      simp [hrowatt]
    have hpairs : ownedPairs (insertState s del) =
        ownedPairs s ++ [((theVersions s).length + 1, s.fields)] := by
      unfold ownedPairs
      rw [htv, List.map_append]
      simp [hvid]
      rfl
    refine ⟨?_, fun _ => ⟨htv, hpairs, hvid⟩⟩
    exact {
      dense := by
        unfold ownedVids
        rw [htv, List.map_append]
        have hd : (theVersions s).map (fun r => r.versionId) =
            List.range' 1 (theVersions s).length := h.dense
        rw [hd]
        have hlen : (theVersions s ++ [insertedRow s del]).length =
            (theVersions s).length + 1 := by simp
        rw [hlen]
        have harith : (1 : Nat) + 1 * (theVersions s).length = (theVersions s).length + 1 := by
          omega
        rw [List.range'_concat, harith]
        simp [hvid]
      openLe := by
        unfold openOwned
        rw [htv, List.filter_append]
        have hopen2 : (theVersions s).filter (fun r => r.validUntil.isNone) = [] := hopen
        rw [hopen2]
        simp [insertedRow]
      unattached := by
        intro hf
        have hf2 : s.saved = false := hf
        rw [hs] at hf2
        exact absurd hf2 (by simp)
      arity := h.arity
      rowArity := by
        intro r hr
        rcases List.mem_append.mp hr with h1 | h1
        · exact h.rowArity r h1
        · rw [List.mem_singleton.mp h1]
          exact h.arity }

theorem superSave_theVersions (a : Nat) (s : EState) (h : Inv a s) :
    theVersions (superSave s) = theVersions s := by
  cases hs : s.saved
  · rw [theVersions_eq_nil_of_not_saved hs]
    rw [theVersions_of_saved (show (superSave s).saved = true from rfl)]
    rw [List.filter_eq_nil_iff]
    intro r hr
    have hu := h.unattached hs r hr
    simp [hu]
  · rw [theVersions_of_saved (show (superSave s).saved = true from rfl),
        theVersions_of_saved hs]
    rfl

theorem ownedPairs_superSave (a : Nat) (s : EState) (h : Inv a s) :
    ownedPairs (superSave s) = ownedPairs s := by
  unfold ownedPairs
  rw [superSave_theVersions a s h]

theorem superSave_inv (a : Nat) (s : EState) (h : Inv a s) : Inv a (superSave s) := {
  dense := by
    unfold ownedVids
    rw [superSave_theVersions a s h]
    exact h.dense
  openLe := by
    unfold openOwned
    rw [superSave_theVersions a s h]
    exact h.openLe
  unattached := by
    intro hf
    exact absurd hf (by simp [superSave])
  arity := h.arity
  rowArity := h.rowArity }

theorem save_not_dirty (s : EState) (hd : s.dirty = false) :
    save s = .ok (superSave s) := by
  simp [save, hd]

theorem save_dirty_spec (a : Nat) (s : EState) (h : Inv a s) (hd : s.dirty = true) :
    ∃ s2, save s = .ok s2 ∧ Inv a s2 ∧ s2.fields = s.fields ∧ s2.saved = true ∧
      ownedPairs s2 = ownedPairs s ++ [((theVersions s).length + 1, s.fields)] ∧
      ∃ row, (theVersions s2).getLast? = some row ∧
        row.versionId = (theVersions s).length + 1 ∧ row.fields = s.fields ∧
        row.validUntil = none ∧ row.deleted = false := by
  have hinv1 := superSave_inv a s h
  obtain ⟨sf, hfin, hinvf, hpairsf, hopenf, hff, hsf, _, _, _⟩ :=
    finalize_spec a (superSave s) hinv1
  have hsaved_f : sf.saved = true := by rw [hsf]; rfl
  obtain ⟨hinv2, hsvd⟩ := insertState_spec a sf false hinvf hopenf
  obtain ⟨htv2, hpairs2, hvid2⟩ := hsvd hsaved_f
  have hpairs_s : ownedPairs sf = ownedPairs s := by
    rw [hpairsf, ownedPairs_superSave a s h]
  have hlen_s : (theVersions sf).length = (theVersions s).length := by
    rw [length_theVersions_eq_length_ownedPairs, hpairs_s,
        ← length_theVersions_eq_length_ownedPairs]
  have hfields_s : sf.fields = s.fields := by rw [hff]; rfl
  refine ⟨insertState sf false, ?_, hinv2, ?_, ?_, ?_, insertedRow sf false, ?_, ?_, ?_, rfl, rfl⟩
  · unfold save
    rw [hd]
    show (match finalize_current_version (superSave s) with
          | .error e => Except.error e
          | .ok s2 => Except.ok (create_new_version s2 true).1) = _
    rw [hfin]
    show Except.ok (create_new_version sf true).1 = _
    rw [create_new_version_true_eq]
  · show sf.fields = s.fields
    exact hfields_s
  · show sf.saved = true
    exact hsaved_f
  · rw [hpairs2, hpairs_s, hlen_s, hfields_s]
  · rw [htv2]
    exact List.getLast?_concat _
  · rw [hvid2, hlen_s]
  · show sf.fields = s.fields
    exact hfields_s

theorem save_total_inv (a : Nat) (s : EState) (h : Inv a s) :
    ∃ s2, save s = .ok s2 ∧ Inv a s2 := by
  cases hd : s.dirty
  · exact ⟨superSave s, save_not_dirty s hd, superSave_inv a s h⟩
  · obtain ⟨s2, hsv, hinv, _⟩ := save_dirty_spec a s h hd
    exact ⟨s2, hsv, hinv⟩

theorem superDelete_inv (a : Nat) (s : EState) (h : Inv a s) : Inv a (superDelete s) := by
  unfold superDelete
  split
  · next hc =>
      have hs : s.saved = true := hc.1
      have htv : theVersions ({ s with row := none, snapshots := s.snapshots.map detach } : EState) = [] := by
        rw [theVersions_of_saved
          (s := { s with row := none, snapshots := s.snapshots.map detach }) hs]
        rw [List.filter_eq_nil_iff]
        intro r hr
        obtain ⟨x, _, rfl⟩ := List.mem_map.mp hr
        simp [detach]
      exact {
        dense := by
          unfold ownedVids
          rw [htv]
          rfl
        openLe := by
          unfold openOwned
          rw [htv]
          simp
        unattached := by
          intro hf
          have hf2 : s.saved = false := hf
          rw [hs] at hf2
          exact absurd hf2 (by simp)
        arity := h.arity
        rowArity := by
          intro r hr
          obtain ⟨x, hx, rfl⟩ := List.mem_map.mp hr
          show (detach x).fields.length = a
          unfold detach
          exact h.rowArity x hx }
  · exact h

theorem deleteTransaction_spec (a : Nat) (s : EState) (h : Inv a s) :
    ∃ s2, deleteTransaction s = .ok s2 ∧ Inv a s2 ∧ s2.row = s.row ∧ s2.saved = s.saved ∧
      s2.fields = s.fields ∧ s2.dirty = s.dirty ∧
      s2.snapshots.length = s.snapshots.length + 1 := by
  obtain ⟨s1, hfin, hinv1, _, hopen1, hf1, hs1, hd1, hr1, hl1⟩ := finalize_spec a s h
  refine ⟨insertState s1 true, deleteTransaction_eq s s1 hfin,
    (insertState_spec a s1 true hinv1 hopen1).1, ?_, ?_, ?_, ?_, ?_⟩
  · show s1.row = s.row
    exact hr1
  · show s1.saved = s.saved
    exact hs1
  · show s1.fields = s.fields
    exact hf1
  · show s1.dirty = s.dirty
    exact hd1
  · show (s1.snapshots ++ [insertedRow s1 true]).length = s.snapshots.length + 1
    rw [List.length_append, hl1]
    rfl

theorem delete_total_inv (a : Nat) (s : EState) (h : Inv a s) :
    ∃ s2, delete_instance s = .ok s2 ∧ Inv a s2 := by
  obtain ⟨s1, htr, hinv1, _⟩ := deleteTransaction_spec a s h
  refine ⟨superDelete s1, ?_, superDelete_inv a s1 hinv1⟩
  unfold delete_instance
  rw [htr]

theorem applyAssign_inv (a : Nat) (s : EState) (i : Nat) (v : Int) (h : Inv a s) :
    Inv a (applyAssign s i v) := by
  unfold applyAssign
  split
  · exact {
      dense := h.dense
      openLe := h.openLe
      unattached := h.unattached
      arity := by
        show (s.fields.set i v).length = a
        rw [List.length_set]
        exact h.arity
      rowArity := h.rowArity }
  · exact h

theorem step_total_inv (a : Nat) (s : EState) (op : Op) (h : Inv a s) :
    ∃ s2, step s op = .ok s2 ∧ Inv a s2 := by
  cases op with
  | assign i v => exact ⟨applyAssign s i v, rfl, applyAssign_inv a s i v h⟩
  | save => exact save_total_inv a s h
  | delete => exact delete_total_inv a s h

theorem init_inv (fs : List Int) (d : Bool) : Inv fs.length (init fs d) := {
  dense := rfl
  openLe := by simp [openOwned, theVersions, init]
  unattached := by intro _ r hr; simp [init] at hr
  arity := rfl
  rowArity := by intro r hr; simp [init] at hr }

theorem run_inv (a : Nat) (s : EState) (ops : List Op) (s2 : EState) (h : Inv a s)
    (hrun : run s ops = .ok s2) : Inv a s2 := by
  induction ops generalizing s with
  | nil =>
      have : s = s2 := by
        simpa [run] using hrun
      rw [← this]
      exact h
  | cons op ops ih =>
      obtain ⟨s1, hstep, hinv1⟩ := step_total_inv a s op h
      rw [show run s (op :: ops) = (match step s op with
            | .error e => Except.error e
            | .ok s3 => run s3 ops) from rfl, hstep] at hrun
      exact ih s1 hinv1 hrun

theorem run_init_inv (fs : List Int) (d : Bool) (ops : List Op) (s : EState)
    (h : run (init fs d) ops = .ok s) : Inv fs.length s :=
  run_inv fs.length (init fs d) ops s (init_inv fs d) h

theorem vid_mem_range_of_mem_theVersions {a : Nat} {s : EState} {r : VersionRow}
    (h : Inv a s) (hr : r ∈ theVersions s) :
    1 ≤ r.versionId ∧ r.versionId < 1 + (theVersions s).length := by
  have hmem : r.versionId ∈ ownedVids s :=
    List.mem_map_of_mem (fun r => r.versionId) hr
  rw [h.dense] at hmem
  exact List.mem_range'_1.mp hmem

theorem resolvePositive_spec (a : Nat) (s : EState) (h : Inv a s) (k : Nat) :
    (1 ≤ k → k ≤ (theVersions s).length →
      ∃ vm, resolvePositive s k = .ok vm ∧ vm.versionId = k ∧ vm ∈ theVersions s) ∧
    (k = 0 ∨ (theVersions s).length < k → resolvePositive s k = .error .doesNotExist) := by
  constructor
  · intro h1 h2
    have hk : k ∈ ownedVids s := by
      rw [h.dense]
      exact List.mem_range'_1.mpr ⟨h1, by omega⟩
    obtain ⟨vm, hvm_mem, hvm_vid⟩ := List.mem_map.mp hk
    cases hf : (theVersions s).filter (fun r => r.versionId == k) with
    | nil =>
        exfalso
        have := List.filter_eq_nil_iff.mp hf vm hvm_mem
        simp [hvm_vid] at this
    | cons v rest =>
        have hv_mem : v ∈ (theVersions s).filter (fun r => r.versionId == k) := by
          rw [hf]
          exact List.mem_cons_self v rest
        obtain ⟨hv_in, hv_eq⟩ := List.mem_filter.mp hv_mem
        refine ⟨v, ?_, by simpa using hv_eq, hv_in⟩
        unfold resolvePositive
        rw [hf]
  · intro hk
    have hfil : (theVersions s).filter (fun r => r.versionId == k) = [] := by
      rw [List.filter_eq_nil_iff]
      intro r hr
      have := vid_mem_range_of_mem_theVersions h hr
      simp only [beq_iff_eq]
      omega
    unfold resolvePositive
    rw [hfil]

theorem range'_reverse_drop_head : ∀ (n k : Nat), k < n →
    ((List.range' 1 n).reverse.drop k).head? = some (n - k) := by
  intro n
  induction n with
  | zero => intro k hk; exact absurd hk (Nat.not_lt_zero k)
  | succ m ih =>
      intro k hk
      have hrev : (List.range' 1 (m + 1)).reverse = (1 + m) :: (List.range' 1 m).reverse := by
        rw [List.range'_concat, List.reverse_append]
        simp
      rw [hrev]
      cases k with
      | zero =>
          show some (1 + m) = some (m + 1 - 0)
          congr 1
          omega
      | succ j =>
          rw [List.drop_succ_cons]
          have hj : j < m := by omega
          rw [ih j hj]
          congr 1
          omega

theorem resolveNegative_spec (a : Nat) (s : EState) (h : Inv a s) (k : Nat) :
    (k < (theVersions s).length →
      ∃ vm, resolveNegative s k = .ok vm ∧
        vm.versionId = (theVersions s).length - k ∧ vm ∈ theVersions s) ∧
    ((theVersions s).length ≤ k → resolveNegative s k = .error .indexError) := by
  have hord : orderByVidDesc (theVersions s) = (theVersions s).reverse :=
    orderByVidDesc_of_range h.dense
  constructor
  · intro hk
    have hmap : ((theVersions s).reverse.drop k).map (fun r => r.versionId) =
        (List.range' 1 (theVersions s).length).reverse.drop k := by
      have hd : (theVersions s).map (fun r => r.versionId) =
          List.range' 1 (theVersions s).length := h.dense
      rw [List.map_drop, List.map_reverse, hd]
    have hh : (((theVersions s).reverse.drop k).map (fun r => r.versionId)).head? =
        some ((theVersions s).length - k) := by
      rw [hmap]
      exact range'_reverse_drop_head (theVersions s).length k hk
    rw [List.head?_map] at hh
    obtain ⟨vm, hvm_head, hvm_vid⟩ := Option.map_eq_some'.mp hh
    cases hdrop : (theVersions s).reverse.drop k with
    | nil => rw [hdrop] at hvm_head; exact absurd hvm_head (by simp)
    | cons v rest =>
        rw [hdrop] at hvm_head
        have hv : v = vm := by simpa using hvm_head
        refine ⟨v, ?_, by rw [hv]; exact hvm_vid, ?_⟩
        · unfold resolveNegative
          rw [hord, hdrop]
        · have hv_mem : v ∈ (theVersions s).reverse.drop k := by
            rw [hdrop]
            exact List.mem_cons_self v rest
          exact List.mem_reverse.mp (List.mem_of_mem_drop hv_mem)
  · intro hk
    have hnil : (theVersions s).reverse.drop k = [] := by
      apply List.drop_eq_nil_of_le
      rw [List.length_reverse]
      exact hk
    unfold resolveNegative
    rw [hord, hnil]

theorem mem_of_resolveSelector {s : EState} {sel : Int} {vm : VersionRow}
    (h : resolveSelector s sel = .ok vm) : vm ∈ theVersions s := by
  unfold resolveSelector at h
  split at h
  · unfold resolvePositive at h
    cases hf : (theVersions s).filter (fun r => r.versionId == sel.toNat) with
    | nil => rw [hf] at h; exact absurd h (by simp)
    | cons v rest =>
        rw [hf] at h
        have hv : v = vm := Except.ok.inj h
        rw [← hv]
        have hv_mem : v ∈ (theVersions s).filter (fun r => r.versionId == sel.toNat) := by
          rw [hf]
          exact List.mem_cons_self v rest
        exact List.mem_of_mem_filter hv_mem
  · unfold resolveNegative at h
    cases hf : (orderByVidDesc (theVersions s)).drop (-sel).toNat with
    | nil => rw [hf] at h; exact absurd h (by simp)
    | cons v rest =>
        rw [hf] at h
        have hv : v = vm := Except.ok.inj h
        rw [← hv]
        have hv_mem : v ∈ (orderByVidDesc (theVersions s)).drop (-sel).toNat := by
          rw [hf]
          exact List.mem_cons_self v rest
        exact mem_of_mem_orderByVidDesc (List.mem_of_mem_drop hv_mem)

/-- The snapshot row created by the first save of a one-field entity holding
5: open, not deleted, version 1. -/
def rowOpen1 : VersionRow :=
  { rid := 0, validFrom := 0, validUntil := none, deleted := false,
    originalRecord := true, versionId := 1, fields := [5] }

/-- The same row after being closed at time 1. -/
def rowClosed1 : VersionRow :=
  { rid := 0, validFrom := 0, validUntil := some 1, deleted := false,
    originalRecord := true, versionId := 1, fields := [5] }

/-- A one-field entity holding 5, saved once: one open snapshot. -/
def exSaved : EState :=
  { fields := [5], dirty := false, saved := true, row := some [5],
    snapshots := [rowOpen1], clock := 1 }

/-- The terminal snapshot the delete transaction inserts on `exSaved`. -/
def rowTerminal2 : VersionRow :=
  { rid := 1, validFrom := 2, validUntil := none, deleted := true,
    originalRecord := true, versionId := 2, fields := [5] }

/-- The store state after the delete transaction of `exSaved` has committed
but before the entity row is deleted. -/
def exDeleteCommitted : EState :=
  { fields := [5], dirty := false, saved := true, row := some [5],
    snapshots := [rowClosed1, rowTerminal2], clock := 3 }

/-- The second snapshot created by re-assigning the already-held value 5 to the
field of `exSaved` and saving again. -/
def rowDup2 : VersionRow :=
  { rid := 1, validFrom := 2, validUntil := none, deleted := false,
    originalRecord := true, versionId := 2, fields := [5] }

/-- `exSaved` after re-assigning the unchanged value and saving: a second
snapshot exists although no field value ever differed. -/
def exResaved : EState :=
  { fields := [5], dirty := false, saved := true, row := some [5],
    snapshots := [rowClosed1, rowDup2], clock := 3 }

/-- The closed second snapshot of the three-version example. -/
def rowClosed2 : VersionRow :=
  { rid := 1, validFrom := 2, validUntil := some 3, deleted := false,
    originalRecord := true, versionId := 2, fields := [6] }

/-- The open third snapshot of the three-version example. -/
def rowOpen3 : VersionRow :=
  { rid := 2, validFrom := 4, validUntil := none, deleted := false,
    originalRecord := true, versionId := 3, fields := [7] }

/-- Save with 5, update to 6, save, update to 7, save: a three-version
history. -/
def lifecycle3 : List Op :=
  [Op.save, Op.assign 0 6, Op.save, Op.assign 0 7, Op.save]

/-- The state reached by `lifecycle3`: versions 1, 2, 3 with 3 open. -/
def exThreeVersions : EState :=
  { fields := [7], dirty := false, saved := true, row := some [7],
    snapshots := [rowClosed1, rowClosed2, rowOpen3], clock := 5 }

/-- The first snapshot after its `_original_record` link was severed by the
entity's delete. -/
def rowDetached1 : VersionRow :=
  { rid := 0, validFrom := 0, validUntil := some 1, deleted := false,
    originalRecord := false, versionId := 1, fields := [5] }

/-- The terminal deleted-snapshot after the link was severed; note its
`_valid_until` stays unset forever. -/
def rowDetachedTerm : VersionRow :=
  { rid := 1, validFrom := 2, validUntil := none, deleted := true,
    originalRecord := false, versionId := 2, fields := [5] }

/-- The snapshot created by saving the entity again after its delete: the
version numbering restarts at 1. -/
def rowReborn : VersionRow :=
  { rid := 2, validFrom := 3, validUntil := none, deleted := false,
    originalRecord := true, versionId := 1, fields := [7] }

/-- Save, delete, update to 7, save: the shadow table now holds version
numbers 1, 2, 1. -/
def exReborn : EState :=
  { fields := [7], dirty := false, saved := true, row := none,
    snapshots := [rowDetached1, rowDetachedTerm, rowReborn], clock := 4 }

/-- A second open row with the same owner: corrupted history, constructible
only by writing to the shadow table outside the engine. -/
def rowCorrupt : VersionRow :=
  { rid := 1, validFrom := 1, validUntil := none, deleted := false,
    originalRecord := true, versionId := 2, fields := [5] }

/-- A corrupted state carrying two open snapshots for one entity. -/
def exCorrupt : EState :=
  { fields := [5], dirty := false, saved := true, row := some [5],
    snapshots := [rowOpen1, rowCorrupt], clock := 2 }

/-- The snapshot produced by a first save of an entity constructed with field
values `fs`. -/
def firstRow (fs : List Int) : VersionRow :=
  { rid := 0, validFrom := 0, validUntil := none, deleted := false,
    originalRecord := true, versionId := 1, fields := fs }

/-- The full state after the first save of a dirty entity with fields `fs`. -/
def firstSaveState (fs : List Int) : EState :=
  { fields := fs, dirty := false, saved := true, row := some fs,
    snapshots := [firstRow fs], clock := 1 }

/-- Claim C1 is false as stated: on `exSaved` (one field holding 5, one
snapshot, version 1) re-assigning the very value 5 the field already holds
and saving produces a second snapshot and increments the current version to
2, because change detection is peewee's assignment-based dirty flag, not a
value comparison against the last persisted values. -/
theorem c1_counterexample :
    run (init [5] true) [Op.save] = .ok exSaved ∧
    exSaved.fields = [5] ∧ ownedVids exSaved = [1] ∧ version_id exSaved = .ok 1 ∧
    run (init [5] true) [Op.save, Op.assign 0 5, Op.save] = .ok exResaved ∧
    ownedVids exResaved = [1, 2] ∧ version_id exResaved = .ok 2 ∧
    exResaved.fields = [5] ∧ exResaved.snapshots ≠ exSaved.snapshots := by
  decide

/-- Claim C1 amended: for an already-saved entity, a save during which no
business field has been assigned since the last save (the dirty set is
empty) creates no new snapshot and no version increment - only the plain row
write happens, and the snapshot set, the linked version list and the current
version number are all unchanged. (Re-assigning a field, even to its current
value, marks the instance dirty, so the subsequent save does create a new
snapshot.) -/
theorem c1_amended (s : EState) (h1 : s.saved = true) (h2 : s.dirty = false) :
    save s = .ok (superSave s) ∧ (superSave s).snapshots = s.snapshots ∧
    theVersions (superSave s) = theVersions s ∧ version_id (superSave s) = version_id s := by
  have htv : theVersions (superSave s) = theVersions s := by
    rw [theVersions_of_saved (show (superSave s).saved = true from rfl),
        theVersions_of_saved h1]
    rfl
  have hoo : openOwned (superSave s) = openOwned s := by
    unfold openOwned
    rw [htv]
  refine ⟨save_not_dirty s h2, rfl, htv, ?_⟩
  unfold version_id getCurrentVersion
  rw [hoo]

/-- Witness for C1 amended at the concrete state `exSaved`. -/
theorem c1_witness :
    exSaved.saved = true ∧ exSaved.dirty = false ∧
    (save exSaved = .ok (superSave exSaved) ∧
      (superSave exSaved).snapshots = exSaved.snapshots ∧
      theVersions (superSave exSaved) = theVersions exSaved ∧
      version_id (superSave exSaved) = version_id exSaved) :=
  ⟨by decide, by decide, c1_amended exSaved (by decide) (by decide)⟩

/-- Claim C2: the code contradicts it. The open-snapshot close and the
terminal deleted-snapshot creation do run inside one transaction (a failure
there leaves the store unchanged), but the entity row delete of
`delete_instance` executes after the `atomic()` block has committed: when
the row delete fails on `exSaved`, the raised error leaves the previous
snapshot closed and the new terminal snapshot committed - the snapshot set
is not in its pre-operation state although the entity row is. -/
theorem c2_delete_outside_transaction :
    run (init [5] true) [Op.save] = .ok exSaved ∧
    deleteTransaction exSaved = .ok exDeleteCommitted ∧
    delete_instanceF exSaved FailAt.atRowDelete =
      (exDeleteCommitted, some VError.storeFailure) ∧
    exDeleteCommitted.snapshots ≠ exSaved.snapshots ∧
    exDeleteCommitted.row = exSaved.row ∧
    delete_instanceF exSaved FailAt.atTransaction = (exSaved, some VError.storeFailure) := by
  decide

/-- Claim C3 is false as stated: after save, delete, update, save, the
version numbers of the snapshots created for the entity are 1, 2, 1 - the
number 1 is reused and the last snapshot does not receive the previous
maximum plus one, because the delete severed the `_original_record` links
and the next save restarts the numbering at 1. -/
theorem c3_counterexample :
    run (init [5] true) [Op.save, Op.delete, Op.assign 0 7, Op.save] = .ok exReborn ∧
    allVids exReborn = [1, 2, 1] ∧ ¬ ([1, 2, 1] : List Nat).Nodup ∧
    ([1, 2, 1] : List Nat) ≠ List.range' 1 3 := by
  decide

/-- Claim C3 amended: for every sequence of assignments, saves and deletes
from a freshly constructed entity, the snapshots still linked to the entity
through `_original_record` carry exactly the dense version numbers `1..N` in
insertion order. (A delete severs the links of all earlier snapshots, and a
save after a delete restarts the numbering at 1, reusing numbers relative to
the detached history.) -/
theorem c3_amended (fs : List Int) (d : Bool) (ops : List Op) (s : EState)
    (h : run (init fs d) ops = .ok s) :
    ownedVids s = List.range' 1 (theVersions s).length :=
  (run_init_inv fs d ops s h).dense

/-- Witness for C3 amended on the three-version lifecycle. -/
theorem c3_witness :
    run (init [5] true) lifecycle3 = .ok exThreeVersions ∧
    ownedVids exThreeVersions = List.range' 1 (theVersions exThreeVersions).length :=
  ⟨by decide, c3_amended [5] true lifecycle3 exThreeVersions (by decide)⟩

/-- Claim C4 is false as stated: after save, delete, update, save - an
observation point outside any transaction - two of the snapshots created for
the entity have `_valid_until` unset: the terminal deleted-snapshot (opened
by the delete and never closed, because the row delete severed its
`_original_record` link and every later lookup misses it) and the fresh open
snapshot that the save after the delete created without closing the terminal
one. -/
theorem c4_counterexample :
    run (init [5] true) [Op.save, Op.delete, Op.assign 0 7, Op.save] = .ok exReborn ∧
    rowDetachedTerm ∈ exReborn.snapshots ∧ rowDetachedTerm.validUntil = none ∧
    rowReborn ∈ exReborn.snapshots ∧ rowReborn.validUntil = none ∧
    rowDetachedTerm ≠ rowReborn ∧
    (exReborn.snapshots.filter (fun r => r.validUntil.isNone)).length = 2 ∧
    ¬ (exReborn.snapshots.filter (fun r => r.validUntil.isNone)).length ≤ 1 := by
  decide

/-- Claim C4 amended: for every sequence of assignments, saves and deletes
from a freshly constructed entity, at most one of the snapshots still linked
to the entity through `_original_record` (the rows the `_versions` relation
reaches, which is what `_get_current_version` queries) has `_valid_until`
unset - every save and delete closes the previously open linked snapshot
before inserting a new one. Snapshots detached by a delete are outside the
invariant: the terminal deleted-snapshot stays open forever, so the entity's
full history can hold a second open row after a later save. -/
theorem c4_at_most_one_open (fs : List Int) (d : Bool) (ops : List Op) (s : EState)
    (h : run (init fs d) ops = .ok s) : (openOwned s).length ≤ 1 :=
  (run_init_inv fs d ops s h).openLe

/-- Witness for C4 at the concrete three-version state. -/
theorem c4_witness :
    run (init [5] true) lifecycle3 = .ok exThreeVersions ∧
    (openOwned exThreeVersions).length ≤ 1 :=
  ⟨by decide, c4_at_most_one_open [5] true lifecycle3 exThreeVersions (by decide)⟩

/-- Claim C5: `_get_current_version` returns the single open snapshot when
exactly one exists, returns nothing (without an error) when none exists, and
raises the fatal consistency `RuntimeError` whenever two or more open
snapshots exist - it never silently picks one. -/
theorem c5_lookup_rule (s : EState) :
    (openOwned s = [] → getCurrentVersion s = .ok none) ∧
    (∀ v, openOwned s = [v] → getCurrentVersion s = .ok (some v)) ∧
    (2 ≤ (openOwned s).length → getCurrentVersion s = .error .consistencyViolation) := by
  refine ⟨?_, ?_, ?_⟩
  · intro h
    unfold getCurrentVersion
    rw [h]
  · intro v h
    unfold getCurrentVersion
    rw [h]
  · intro h
    unfold getCurrentVersion
    rcases hoo : openOwned s with _ | ⟨v, _ | ⟨w, rest⟩⟩
    · rw [hoo] at h
      simp at h
    · rw [hoo] at h
      simp at h
    · rfl

/-- Witness for C5 on three concrete states: no history, exactly one open
snapshot, and a corrupted two-open-snapshot table. -/
theorem c5_witness :
    getCurrentVersion (init [5] true) = .ok none ∧
    getCurrentVersion exSaved = .ok (some rowOpen1) ∧
    getCurrentVersion exCorrupt = .error .consistencyViolation :=
  ⟨(c5_lookup_rule (init [5] true)).1 (by decide),
   (c5_lookup_rule exSaved).2.1 rowOpen1 (by decide),
   (c5_lookup_rule exCorrupt).2.2 (by decide)⟩

/-- Claim C6 is false as stated for negative selectors: with history
`1, 2, 3` (3 open), the claim's rule says `-1` resolves to the 1st snapshot
in descending order, which is version 3, and that `-3` resolves (3 snapshots
is not fewer than 3); the code instead skips one row per unit (`offset`), so
`-1` resolves to version 2, and `-3` raises `IndexError`. -/
theorem c6_counterexample :
    run (init [5] true) lifecycle3 = .ok exThreeVersions ∧
    ownedVids exThreeVersions = [1, 2, 3] ∧
    (resolveSelector exThreeVersions (-1)).toOption.map (fun r => r.versionId) = some 2 ∧
    (resolveSelector exThreeVersions (-1)).toOption.map (fun r => r.versionId) ≠ some 3 ∧
    resolveSelector exThreeVersions (-3) = .error .indexError := by
  decide

/-- Claim C6 amended: on every reachable history, a non-negative selector
resolves to the snapshot whose `_version_id` equals it and fails with
`DoesNotExist` (NotFound) when no such snapshot exists; a negative selector
`-k` skips the `k` most recent snapshots and resolves to the `(k+1)`-th
snapshot in descending version order - version `N - k` - and raises
`IndexError` when the history holds at most `k` snapshots. -/
theorem c6_amended (fs : List Int) (d : Bool) (ops : List Op) (s : EState) (k : Nat)
    (hrun : run (init fs d) ops = .ok s) :
    (1 ≤ k → k ≤ (theVersions s).length →
      ∃ vm, resolveSelector s (k : Int) = .ok vm ∧ vm.versionId = k ∧ vm ∈ theVersions s) ∧
    (k = 0 ∨ (theVersions s).length < k →
      resolveSelector s (k : Int) = .error .doesNotExist) ∧
    (1 ≤ k → k < (theVersions s).length →
      ∃ vm, resolveSelector s (-(k : Int)) = .ok vm ∧
        vm.versionId = (theVersions s).length - k ∧ vm ∈ theVersions s) ∧
    (1 ≤ k → (theVersions s).length ≤ k →
      resolveSelector s (-(k : Int)) = .error .indexError) := by
  have hinv := run_init_inv fs d ops s hrun
  have hsel_pos : resolveSelector s (k : Int) = resolvePositive s k := by
    unfold resolveSelector
    rw [if_pos (by omega : (0 : Int) ≤ (k : Int))]
    congr 1
  refine ⟨?_, ?_, ?_, ?_⟩
  · intro h1 h2
    rw [hsel_pos]
    exact (resolvePositive_spec fs.length s hinv k).1 h1 h2
  · intro hk
    rw [hsel_pos]
    exact (resolvePositive_spec fs.length s hinv k).2 hk
  · intro h1 h2
    have hsel_neg : resolveSelector s (-(k : Int)) = resolveNegative s k := by
      unfold resolveSelector
      rw [if_neg (by omega : ¬ (0 : Int) ≤ -(k : Int))]
      congr 1
      omega
    rw [hsel_neg]
    exact (resolveNegative_spec fs.length s hinv k).1 h2
  · intro h1 h2
    have hsel_neg : resolveSelector s (-(k : Int)) = resolveNegative s k := by
      unfold resolveSelector
      rw [if_neg (by omega : ¬ (0 : Int) ≤ -(k : Int))]
      congr 1
      omega
    rw [hsel_neg]
    exact (resolveNegative_spec fs.length s hinv k).2 h2

/-- Witness for C6 amended at `k = 2` on the three-version history: selector
2 resolves to version 2 and selector -2 skips the two most recent versions
and resolves to version 1. -/
theorem c6_witness :
    (∃ vm, resolveSelector exThreeVersions ((2 : Nat) : Int) = .ok vm ∧
      vm.versionId = 2 ∧ vm ∈ theVersions exThreeVersions) ∧
    (∃ vm, resolveSelector exThreeVersions (-((2 : Nat) : Int)) = .ok vm ∧
      vm.versionId = (theVersions exThreeVersions).length - 2 ∧
      vm ∈ theVersions exThreeVersions) :=
  ⟨(c6_amended [5] true lifecycle3 exThreeVersions 2 (by decide)).1 (by decide) (by decide),
   (c6_amended [5] true lifecycle3 exThreeVersions 2 (by decide)).2.2.1
     (by decide) (by decide)⟩

/-- Claim C7: on every reachable history of an entity with at least one
business field, whenever the revert selector resolves to snapshot `vm`, the
revert succeeds, the entity's business fields become exactly `vm`'s stored
fields, every existing linked snapshot keeps its version number and fields
(history is never rewritten), and one brand-new snapshot `N + 1` is appended
whose business fields equal `vm`'s and whose bookkeeping fields are fresh
(`_valid_until` unset, `_deleted` false) rather than copied from `vm`. -/
theorem c7_revert_round_trip (fs : List Int) (d : Bool) (ops : List Op) (s : EState)
    (sel : Int) (vm : VersionRow) (hrun : run (init fs d) ops = .ok s) (hfs : fs ≠ [])
    (hres : resolveSelector s sel = .ok vm) :
    ∃ s2, revert s sel = .ok s2 ∧ s2.fields = vm.fields ∧
      ownedPairs s2 = ownedPairs s ++ [((theVersions s).length + 1, vm.fields)] ∧
      ∃ row, (theVersions s2).getLast? = some row ∧
        row.versionId = (theVersions s).length + 1 ∧ row.fields = vm.fields ∧
        row.validUntil = none ∧ row.deleted = false := by
  have hinv := run_init_inv fs d ops s hrun
  have hvm_mem := mem_of_resolveSelector hres
  have hvm_len : vm.fields.length = fs.length :=
    hinv.rowArity vm (mem_snapshots_of_mem_theVersions hvm_mem)
  have hfe : s.fields.isEmpty = false := by
    cases hsf : s.fields with
    | nil =>
        exfalso
        have h0 : fs.length = 0 := by
          rw [← hinv.arity, hsf]
          rfl
        exact hfs (List.length_eq_zero.mp h0)
    | cons x xs => rfl
  have hdirty : (copyFields s vm).dirty = true := by
    show (s.dirty || !s.fields.isEmpty) = true
    rw [hfe]
    simp
  have hinv_c : Inv fs.length (copyFields s vm) :=
    { dense := hinv.dense, openLe := hinv.openLe, unattached := hinv.unattached,
      arity := hvm_len, rowArity := hinv.rowArity }
  obtain ⟨s2, hsave, _, hf2, _, hpairs2, row, hlast, hvidr, hfieldsr, hvu, hdel⟩ :=
    save_dirty_spec fs.length (copyFields s vm) hinv_c hdirty
  refine ⟨s2, ?_, hf2, hpairs2, row, hlast, hvidr, hfieldsr, hvu, hdel⟩
  unfold revert
  rw [hres]
  exact hsave

/-- Witness for C7: reverting `exThreeVersions` to version 1 restores fields
`[5]` and appends snapshot 4 holding `[5]`. -/
theorem c7_witness :
    run (init [5] true) lifecycle3 = .ok exThreeVersions ∧ ([5] : List Int) ≠ [] ∧
    resolveSelector exThreeVersions 1 = .ok rowClosed1 ∧
    (∃ s2, revert exThreeVersions 1 = .ok s2 ∧ s2.fields = rowClosed1.fields ∧
      ownedPairs s2 = ownedPairs exThreeVersions ++
        [((theVersions exThreeVersions).length + 1, rowClosed1.fields)] ∧
      ∃ row, (theVersions s2).getLast? = some row ∧
        row.versionId = (theVersions exThreeVersions).length + 1 ∧
        row.fields = rowClosed1.fields ∧ row.validUntil = none ∧ row.deleted = false) :=
  ⟨by decide, by decide, by decide,
   c7_revert_round_trip [5] true lifecycle3 exThreeVersions 1 rowClosed1
     (by decide) (by decide) (by decide)⟩

/-- Claim C8 is false as stated: the first save of an entity constructed
with no field values and no defaults (peewee seeds the dirty set only with
assigned or defaulted fields) takes the not-dirty path and creates no
snapshot at all - `save` has no special case for the first save. -/
theorem c8_counterexample :
    (init [5] false).saved = false ∧
    save (init [5] false) = .ok (superSave (init [5] false)) ∧
    (superSave (init [5] false)).snapshots = [] := by
  decide

/-- Claim C8 amended: the first save of an entity creates snapshot version 1
(holding the entity's field values, open) exactly when the instance is dirty,
i.e. when some field was assigned or carried a default at construction; the
first save of a pristine instance creates no snapshot. -/
theorem c8_amended (fs : List Int) :
    save (init fs true) = .ok (firstSaveState fs) ∧
    ownedVids (firstSaveState fs) = [1] ∧
    (theVersions (firstSaveState fs)).map (fun r => r.fields) = [fs] ∧
    (openOwned (firstSaveState fs)).map (fun r => r.versionId) = [1] ∧
    save (init fs false) = .ok (superSave (init fs false)) ∧
    (superSave (init fs false)).snapshots = [] :=
  ⟨rfl, rfl, rfl, rfl, rfl, rfl⟩

/-- Witness for C8 amended at the one-field entity holding 5. -/
theorem c8_witness :
    save (init [5] true) = .ok (firstSaveState [5]) ∧
    ownedVids (firstSaveState [5]) = [1] ∧
    (theVersions (firstSaveState [5])).map (fun r => r.fields) = [[5]] ∧
    (openOwned (firstSaveState [5])).map (fun r => r.versionId) = [1] ∧
    save (init [5] false) = .ok (superSave (init [5] false)) ∧
    (superSave (init [5] false)).snapshots = [] :=
  c8_amended [5]

/-- Claim C9 is false as stated: `create_table` provisions the entity's own
table first and the snapshot table after it (not before or together), and
`drop_table` tears the snapshot table down first and the entity's after it
(not after). -/
theorem c9_counterexample :
    create_table = [TableEvent.entityTable, TableEvent.versionTable] ∧
    drop_table = [TableEvent.versionTable, TableEvent.entityTable] ∧
    ¬ create_table.indexOf TableEvent.versionTable ≤
        create_table.indexOf TableEvent.entityTable ∧
    ¬ drop_table.indexOf TableEvent.entityTable <
        drop_table.indexOf TableEvent.versionTable := by
  decide

/-- Claim C9 amended: on creation the entity table strictly precedes the
snapshot table, and on drop the snapshot table strictly precedes the entity
table - the order consistent with the snapshot table's foreign key into the
entity table. -/
theorem c9_amended :
    create_table.indexOf TableEvent.entityTable <
      create_table.indexOf TableEvent.versionTable ∧
    drop_table.indexOf TableEvent.versionTable <
      drop_table.indexOf TableEvent.entityTable := by
  decide

/-- Claim C10: reading the `version_id` property of a live entity that has
no open snapshot dereferences the `None` returned by the lookup, raising an
attribute-access error - it neither returns `None` (despite the docstring)
nor raises a NotFound-style error. -/
theorem c10_version_id_attribute_error (s : EState) (h : openOwned s = []) :
    version_id s = .error .attributeError := by
  unfold version_id getCurrentVersion
  rw [h]

/-- Witness for C10 on a live entity (row present) whose first save was a
no-op for snapshot creation. -/
theorem c10_witness :
    openOwned (superSave (init [5] false)) = [] ∧
    (superSave (init [5] false)).row = some [5] ∧
    version_id (superSave (init [5] false)) = .error .attributeError :=
  ⟨by decide, by decide, c10_version_id_attribute_error (superSave (init [5] false)) (by decide)⟩

end PeeweeVersioned
